import Mathlib

/-!
Verification of the procedural terrain subsystem (heightmap generation and
mesh building).  The JavaScript source is embedded shallowly: heights are
modelled as exact rationals, the `Float32Array` backing store as a list with a
length invariant, and the ambient `Math.random()` source feeding gradient
generation as an explicit stream of 2D vectors.  The final normalization step
(`Math.sqrt` followed by division) is modelled over the reals.
-/

/- Rational arithmetic is kept kernel-computable so concrete runs of the
   embedded code can be evaluated by `decide`. -/
attribute [local semireducible] Rat.add Rat.mul Rat.inv Rat.sub

/-- Heightmap: a 2D grid of heights, row-major, as in
`class Heightmap { constructor(width, height) { this.data = new Float32Array(width*height) } }`.
The backing array always has length `width * height`. -/
structure Heightmap where
  width : Nat
  height : Nat
  data : List ℚ
  hlen : data.length = width * height

/-- Construction `new Heightmap(width, height)`: all cells zero. -/
def Heightmap.ofSize (width height : Nat) : Heightmap :=
  ⟨width, height, List.replicate (width * height) 0, by simp⟩

/-- A `width × height` heightmap every cell of which holds the constant `c`. -/
def Heightmap.const (width height : Nat) (c : ℚ) : Heightmap :=
  ⟨width, height, List.replicate (width * height) c, by simp⟩

/-- Heightmap.get: `if (x < 0 || x >= this.width || y < 0 || y >= this.height) return 0;
return this.data[y * this.width + x];` -/
def Heightmap.get (hm : Heightmap) (x y : ℤ) : ℚ :=
  if x < 0 ∨ (hm.width : ℤ) ≤ x ∨ y < 0 ∨ (hm.height : ℤ) ≤ y then 0
  else hm.data.getD (y.toNat * hm.width + x.toNat) 0

/-- Heightmap.set: out-of-bounds writes are dropped, in-bounds writes overwrite
`this.data[y * this.width + x] = value`. -/
def Heightmap.set (hm : Heightmap) (x y : ℤ) (value : ℚ) : Heightmap :=
  if x < 0 ∨ (hm.width : ℤ) ≤ x ∨ y < 0 ∨ (hm.height : ℤ) ≤ y then hm
  else ⟨hm.width, hm.height, hm.data.set (y.toNat * hm.width + x.toNat) value,
    by rw [List.length_set]; exact hm.hlen⟩

/-- Heightmap.add: out-of-bounds accumulates are dropped, in-bounds do
`this.data[y * this.width + x] += value`. -/
def Heightmap.add (hm : Heightmap) (x y : ℤ) (value : ℚ) : Heightmap :=
  if x < 0 ∨ (hm.width : ℤ) ≤ x ∨ y < 0 ∨ (hm.height : ℤ) ≤ y then hm
  else ⟨hm.width, hm.height,
    hm.data.set (y.toNat * hm.width + x.toNat)
      (hm.data.getD (y.toNat * hm.width + x.toNat) 0 + value),
    by rw [List.length_set]; exact hm.hlen⟩

/-- In-bounds predicate for a cell of a `W × H` grid. -/
def inGrid (W H : Nat) (x y : ℤ) : Prop :=
  0 ≤ x ∧ x < (W : ℤ) ∧ 0 ≤ y ∧ y < (H : ℤ)

instance (W H : Nat) (x y : ℤ) : Decidable (inGrid W H x y) := by
  unfold inGrid; infer_instance

/-- Integer counter values of a loop `for (i = a; i < b; i++)`. -/
def intRangeLt (a b : ℤ) : List ℤ :=
  (List.range (b - a).toNat).map (fun (i : Nat) => a + (i : ℤ))

/-- Integer counter values of a loop `for (i = a; i <= b; i++)`. -/
def intRangeLe (a b : ℤ) : List ℤ :=
  intRangeLt a (b + 1)

/-- Heightmap.drawRectangle: nested loops
`for (py = y; py < y + height && py < this.height; py++)`
`for (px = x; px < x + width && px < this.width; px++)`
setting the cell whenever `px >= 0 && py >= 0`. -/
def Heightmap.drawRectangle (hm : Heightmap) (x y width height : ℤ) (heightValue : ℚ) :
    Heightmap :=
  (intRangeLt y (min (y + height) (hm.height : ℤ))).foldl (fun a py =>
    (intRangeLt x (min (x + width) (hm.width : ℤ))).foldl (fun b px =>
      if 0 ≤ px ∧ 0 ≤ py then b.set px py heightValue else b) a) hm

/-- Heightmap.drawCircle: loops
`for (y = floor(centerY - radius); y <= ceil(centerY + radius); y++)` and
similarly for `x`, setting the cell whenever `dx*dx + dy*dy <= radius*radius`. -/
def Heightmap.drawCircle (hm : Heightmap) (centerX centerY radius : ℚ) (heightValue : ℚ) :
    Heightmap :=
  (intRangeLe ⌊centerY - radius⌋ ⌈centerY + radius⌉).foldl (fun a (y : ℤ) =>
    (intRangeLe ⌊centerX - radius⌋ ⌈centerX + radius⌉).foldl (fun b (x : ℤ) =>
      if ((x : ℚ) - centerX) * ((x : ℚ) - centerX) +
          ((y : ℚ) - centerY) * ((y : ℚ) - centerY) ≤ radius * radius
      then b.set x y heightValue else b) a) hm

/-- PerlinNoise instance state: the lazily populated gradient table keyed by
grid corner, the sample memo keyed by exact coordinates, and the ambient
random source (`Math.random`) modelled as a stream of the unit vectors
`(cos θ, sin θ)` that `rand_vect` would produce, with a cursor. -/
structure PerlinNoise where
  gradients : List ((ℤ × ℤ) × (ℚ × ℚ))
  memory : List ((ℚ × ℚ) × ℚ)
  stream : Nat → ℚ × ℚ
  counter : Nat

/-- Association-list lookup, first (most recent) binding wins, mirroring a JS
object used as a dictionary. -/
def alookup {α β : Type} [DecidableEq α] : List (α × β) → α → Option β
  | [], _ => none
  | (k, v) :: rest, a => if a = k then some v else alookup rest a

/-- PerlinNoise.rand_vect: draws the next random unit vector from the ambient
source (`Math.random() * 2 * Math.PI` fed through cos/sin). -/
def PerlinNoise.rand_vect (p : PerlinNoise) : (ℚ × ℚ) × PerlinNoise :=
  (p.stream p.counter, { p with counter := p.counter + 1 })

/-- PerlinNoise.dot_prod_grid: fetches (or generates and caches) the gradient
of corner `(vx, vy)` and returns its dot product with the offset vector
`(x - vx, y - vy)`. -/
def PerlinNoise.dot_prod_grid (p : PerlinNoise) (x y : ℚ) (vx vy : ℤ) :
    ℚ × PerlinNoise :=
  match alookup p.gradients (vx, vy) with
  | some g => ((x - (vx : ℚ)) * g.1 + (y - (vy : ℚ)) * g.2, p)
  | none =>
    let r := p.rand_vect
    ((x - (vx : ℚ)) * r.1.1 + (y - (vy : ℚ)) * r.1.2,
      { r.2 with gradients := ((vx, vy), r.1) :: r.2.gradients })

/-- The quintic interpolant `6x^5 - 15x^4 + 10x^3`. -/
def smootherstep (x : ℚ) : ℚ := 6 * x ^ 5 - 15 * x ^ 4 + 10 * x ^ 3

/-- Interpolation `a + smootherstep(x) * (b - a)`. -/
def interp (x a b : ℚ) : ℚ := a + smootherstep x * (b - a)

/-- The noise value of PerlinNoise.get at `(x, y)` expressed as a function of
the four corner gradients: four dot products blended by smootherstep
interpolation in x and then y. -/
def noiseVal (x y : ℚ) (g1 g2 g3 g4 : ℚ × ℚ) : ℚ :=
  interp (y - ((⌊y⌋ : ℤ) : ℚ))
    (interp (x - ((⌊x⌋ : ℤ) : ℚ))
      ((x - ((⌊x⌋ : ℤ) : ℚ)) * g1.1 + (y - ((⌊y⌋ : ℤ) : ℚ)) * g1.2)
      ((x - ((⌊x⌋ + 1 : ℤ) : ℚ)) * g2.1 + (y - ((⌊y⌋ : ℤ) : ℚ)) * g2.2))
    (interp (x - ((⌊x⌋ : ℤ) : ℚ))
      ((x - ((⌊x⌋ : ℤ) : ℚ)) * g3.1 + (y - ((⌊y⌋ + 1 : ℤ) : ℚ)) * g3.2)
      ((x - ((⌊x⌋ + 1 : ℤ) : ℚ)) * g4.1 + (y - ((⌊y⌋ + 1 : ℤ) : ℚ)) * g4.2))

/-- The body of PerlinNoise.get past the memo check: the four corner dot
products, the two x-interpolations, the y-interpolation, and the memo write. -/
def PerlinNoise.compute (p : PerlinNoise) (x y : ℚ) : ℚ × PerlinNoise :=
  let xf : ℤ := ⌊x⌋
  let yf : ℤ := ⌊y⌋
  let r1 := p.dot_prod_grid x y xf yf
  let r2 := r1.2.dot_prod_grid x y (xf + 1) yf
  let r3 := r2.2.dot_prod_grid x y xf (yf + 1)
  let r4 := r3.2.dot_prod_grid x y (xf + 1) (yf + 1)
  let xt := interp (x - (xf : ℚ)) r1.1 r2.1
  let xb := interp (x - (xf : ℚ)) r3.1 r4.1
  let v := interp (y - (yf : ℚ)) xt xb
  (v, { r4.2 with memory := ((x, y), v) :: r4.2.memory })

/-- PerlinNoise.get: `if (this.memory[key]) return this.memory[key];` — a JS
truthiness test, so a memoized value of 0 misses and the sample is recomputed
— otherwise compute and memoize. -/
def PerlinNoise.get (p : PerlinNoise) (x y : ℚ) : ℚ × PerlinNoise :=
  match alookup p.memory (x, y) with
  | some v => if v = 0 then p.compute x y else (v, p)
  | none => p.compute x y

/-- The loop body of applyPerlinNoise for one cell `c = (x, y)`: the octave
loop `value += perlin.get(x*freq, y*freq) * amp; freq *= 2; amp *= 0.5;`
followed by `this.add(x, y, value)`. -/
def noiseCellStep (scale amplitude : ℚ) (octaves : Nat)
    (st : Heightmap × PerlinNoise) (c : Nat × Nat) : Heightmap × PerlinNoise :=
  let o := (List.range octaves).foldl
    (fun (a : ℚ × ℚ × ℚ × PerlinNoise) _ =>
      match a.2.2.2.get ((c.1 : ℚ) * a.2.1) ((c.2 : ℚ) * a.2.1) with
      | (n, p) => (a.1 + n * a.2.2.1, a.2.1 * 2, a.2.2.1 * (1/2), p))
    (0, scale, amplitude, st.2)
  (st.1.add (c.1 : ℤ) (c.2 : ℤ) o.1, o.2.2.2)

/-- Heightmap.applyPerlinNoise: creates a fresh `new PerlinNoise()` backed by
the ambient random stream, then for each cell (y outer, x inner) accumulates
`octaves` octaves at doubling frequency and halving amplitude via `add`. -/
def Heightmap.applyPerlinNoise (hm : Heightmap) (scale amplitude : ℚ) (octaves : Nat)
    (stream : Nat → ℚ × ℚ) : Heightmap :=
  let cells := (List.range hm.height).flatMap (fun y =>
    (List.range hm.width).map (fun x => (x, y)))
  (cells.foldl (noiseCellStep scale amplitude octaves) (hm, ⟨[], [], stream, 0⟩)).1

/-- generateProceduralHeightmap: Perlin noise at (0.05, 8, 4), then the flat
pads — four rectangles and one circle — in source order. -/
def generateProceduralHeightmap (width height : Nat) (stream : Nat → ℚ × ℚ) :
    Heightmap :=
  (((((((Heightmap.ofSize width height).applyPerlinNoise (1/20) 8 4 stream
    ).drawRectangle 50 50 40 40 2
    ).drawRectangle 170 170 35 35 2
    ).drawRectangle 100 30 60 30 (5/2)
    ).drawRectangle 30 150 50 40 (9/5)
    ).drawCircle 128 128 25 3)

/-- A flat-pad stamp: one of the overwriting shape edits applied after the
noise pass. -/
inductive Pad where
  | rect (x y w h : ℤ) (v : ℚ)
  | disc (cx cy r : ℚ) (v : ℚ)

/-- The cells a pad covers: the rectangle's half-open box, the disc's
inclusive Euclidean ball. -/
def Pad.covers (p : Pad) (x y : ℤ) : Prop :=
  match p with
  | Pad.rect x0 y0 w h _ => x0 ≤ x ∧ x < x0 + w ∧ y0 ≤ y ∧ y < y0 + h
  | Pad.disc cx cy r _ =>
      ((x : ℚ) - cx) * ((x : ℚ) - cx) + ((y : ℚ) - cy) * ((y : ℚ) - cy) ≤ r * r

instance (p : Pad) (x y : ℤ) : Decidable (p.covers x y) := by
  cases p <;> (unfold Pad.covers; infer_instance)

/-- The value a pad writes. -/
def Pad.value : Pad → ℚ
  | Pad.rect _ _ _ _ v => v
  | Pad.disc _ _ _ v => v

/-- The pad sequence hard-coded in generateProceduralHeightmap, in order. -/
def codePads : List Pad :=
  [Pad.rect 50 50 40 40 2, Pad.rect 170 170 35 35 2, Pad.rect 100 30 60 30 (5/2),
   Pad.rect 30 150 50 40 (9/5), Pad.disc 128 128 25 3]

/-- The value of the last pad in the list covering `(x, y)`, if any. -/
def lastPadValue (ps : List Pad) (x y : ℤ) : Option ℚ :=
  ps.foldl (fun acc p => if p.covers x y then some p.value else acc) none

/-- Vertex positions of createTerrainMesh, row-major (z outer, x inner):
`(x + offsetX, heightmap.get(x, z), z + offsetZ)` with the mesh centered via
`offsetX = -width/2`, `offsetZ = -height/2`. -/
def terrainVertices (hm : Heightmap) : List (ℚ × ℚ × ℚ) :=
  (List.range hm.height).flatMap (fun (z : Nat) =>
    (List.range hm.width).map (fun (x : Nat) =>
      ((x : ℚ) + -(hm.width : ℚ) / 2, hm.get (x : ℤ) (z : ℤ), (z : ℚ) + -(hm.height : ℚ) / 2)))

/-- Triangle index triples of createTerrainMesh: for each interior quad,
`(topLeft, bottomLeft, topRight)` then `(topRight, bottomLeft, bottomRight)`. -/
def terrainTriangles (W H : Nat) : List (Nat × Nat × Nat) :=
  (List.range (H - 1)).flatMap (fun z =>
    (List.range (W - 1)).flatMap (fun x =>
      [(z * W + x, (z + 1) * W + x, z * W + x + 1),
       (z * W + x + 1, (z + 1) * W + x, (z + 1) * W + x + 1)]))

/-- The flat index buffer: per quad the six pushes
`indices.push(topLeft, bottomLeft, topRight); indices.push(topRight, bottomLeft, bottomRight)`. -/
def terrainIndices (W H : Nat) : List Nat :=
  (List.range (H - 1)).flatMap (fun z =>
    (List.range (W - 1)).flatMap (fun x =>
      [z * W + x, (z + 1) * W + x, z * W + x + 1,
       z * W + x + 1, (z + 1) * W + x, (z + 1) * W + x + 1]))

/-- Cross product, in the source's component order
`[e1y*e2z - e1z*e2y, e1z*e2x - e1x*e2z, e1x*e2y - e1y*e2x]`. -/
def cross : (ℚ × ℚ × ℚ) → (ℚ × ℚ × ℚ) → (ℚ × ℚ × ℚ)
  | (a1, a2, a3), (b1, b2, b3) =>
    (a2 * b3 - a3 * b2, a3 * b1 - a1 * b3, a1 * b2 - a2 * b1)

/-- Face normal of one triangle: cross product of the two edge vectors from
vertex 0, left unnormalized (area weighting). -/
def faceNormal (vs : List (ℚ × ℚ × ℚ)) (t : Nat × Nat × Nat) : ℚ × ℚ × ℚ :=
  cross (vs.getD t.2.1 0 - vs.getD t.1 0) (vs.getD t.2.2 0 - vs.getD t.1 0)

/-- The per-vertex accumulated face normals: every triangle adds its face
normal into the running sums of its three vertices. -/
def accNormals (vs : List (ℚ × ℚ × ℚ)) (tris : List (Nat × Nat × Nat)) :
    Nat → ℚ × ℚ × ℚ :=
  tris.foldl (fun acc t =>
    fun j => acc j + (if j = t.1 then faceNormal vs t else 0) +
      (if j = t.2.1 then faceNormal vs t else 0) +
      (if j = t.2.2 then faceNormal vs t else 0))
    (fun _ => 0)

/-- Squared length of an accumulated normal. -/
def normSq (v : ℚ × ℚ × ℚ) : ℚ := v.1 * v.1 + v.2.1 * v.2.1 + v.2.2 * v.2.2

open Classical in
/-- The normalization step: `len = Math.sqrt(n0^2 + n1^2 + n2^2)`; if
`len > 0` divide each component by it, else fall back to `(0, 1, 0)`. -/
noncomputable def normalize3 (n : ℚ × ℚ × ℚ) : ℝ × ℝ × ℝ :=
  if 0 < Real.sqrt ((normSq n : ℚ) : ℝ) then
    ((n.1 : ℝ) / Real.sqrt ((normSq n : ℚ) : ℝ),
     (n.2.1 : ℝ) / Real.sqrt ((normSq n : ℚ) : ℝ),
     (n.2.2 : ℝ) / Real.sqrt ((normSq n : ℚ) : ℝ))
  else (0, 1, 0)

/-- The smoothed per-vertex normal of the built terrain mesh. -/
noncomputable def vertexNormal (hm : Heightmap) (j : Nat) : ℝ × ℝ × ℝ :=
  normalize3 (accNormals (terrainVertices hm) (terrainTriangles hm.width hm.height) j)

/-- Magnitude of a real 3-vector. -/
noncomputable def mag (v : ℝ × ℝ × ℝ) : ℝ :=
  Real.sqrt (v.1 * v.1 + v.2.1 * v.2.1 + v.2.2 * v.2.2)

/-- The CPU-side mesh returned by createTerrainMesh (buffer handles aside):
vertex positions, index buffer, and the two counts. -/
structure TerrainMesh where
  vertices : List (ℚ × ℚ × ℚ)
  indices : List Nat
  indexCount : Nat
  vertexCount : Nat

/-- createTerrainMesh, restricted to its CPU-side output. -/
def createTerrainMesh (hm : Heightmap) : TerrainMesh :=
  { vertices := terrainVertices hm
    indices := terrainIndices hm.width hm.height
    indexCount := (terrainIndices hm.width hm.height).length
    vertexCount := (terrainVertices hm).length }

/-- Claim C2: out-of-bounds reads return 0 exactly, and out-of-bounds set/add
are no-ops on every in-bounds cell. -/
theorem heightmap_oob_safe (hm : Heightmap) (x y : ℤ)
    (h : x < 0 ∨ (hm.width : ℤ) ≤ x ∨ y < 0 ∨ (hm.height : ℤ) ≤ y) (v d : ℚ) :
    hm.get x y = 0 ∧
    (∀ x' y', inGrid hm.width hm.height x' y' → (hm.set x y v).get x' y' = hm.get x' y') ∧
    (∀ x' y', inGrid hm.width hm.height x' y' → (hm.add x y d).get x' y' = hm.get x' y') := by
  refine ⟨?_, ?_, ?_⟩
  · simp [Heightmap.get, h]
  · intro x' y' _; simp [Heightmap.set, h]
  · intro x' y' _; simp [Heightmap.add, h]

/-- Witness for C2 at a concrete heightmap and coordinate. -/
theorem heightmap_oob_safe_witness :
    (Heightmap.const 2 2 5).get (-1) 0 = 0 ∧
    (∀ x' y', inGrid 2 2 x' y' →
      ((Heightmap.const 2 2 5).set (-1) 0 9).get x' y' = (Heightmap.const 2 2 5).get x' y') ∧
    (∀ x' y', inGrid 2 2 x' y' →
      ((Heightmap.const 2 2 5).add (-1) 0 9).get x' y' = (Heightmap.const 2 2 5).get x' y') :=
  heightmap_oob_safe (Heightmap.const 2 2 5) (-1) 0 (by decide) 9 9

lemma Heightmap.width_set (hm : Heightmap) (x y : ℤ) (v : ℚ) :
    (hm.set x y v).width = hm.width := by
  unfold Heightmap.set; split <;> rfl

lemma Heightmap.height_set (hm : Heightmap) (x y : ℤ) (v : ℚ) :
    (hm.set x y v).height = hm.height := by
  unfold Heightmap.set; split <;> rfl

lemma rowcol_inj {W a b a' b' : Nat} (ha : a < W) (ha' : a' < W)
    (h : b * W + a = b' * W + a') : b = b' ∧ a = a' := by
  have hW : 0 < W := Nat.lt_of_le_of_lt (Nat.zero_le a) ha
  have hb : (b * W + a) / W = b := by
    rw [Nat.mul_comm, Nat.mul_add_div hW, Nat.div_eq_of_lt ha, Nat.add_zero]
  have hb' : (b' * W + a') / W = b' := by
    rw [Nat.mul_comm, Nat.mul_add_div hW, Nat.div_eq_of_lt ha', Nat.add_zero]
  have hbb : b = b' := by rw [← hb, ← hb', h]
  subst hbb
  exact ⟨rfl, Nat.add_left_cancel h⟩

lemma cellIndex_lt {W H : Nat} {x y : ℤ} (h : inGrid W H x y) :
    y.toNat * W + x.toNat < W * H := by
  obtain ⟨h1, h2, h3, h4⟩ := h
  have hx : x.toNat < W := by omega
  have hy : y.toNat + 1 ≤ H := by omega
  calc y.toNat * W + x.toNat < y.toNat * W + W := Nat.add_lt_add_left hx _
    _ = (y.toNat + 1) * W := (Nat.succ_mul _ _).symm
    _ ≤ H * W := mul_le_mul_right' hy W
    _ = W * H := Nat.mul_comm _ _

lemma Heightmap.get_set (hm : Heightmap) (x y : ℤ) (v : ℚ) (x' y' : ℤ) :
    (hm.set x y v).get x' y' =
      if x' = x ∧ y' = y ∧ inGrid hm.width hm.height x y then v else hm.get x' y' := by
  by_cases hoob : x < 0 ∨ (hm.width : ℤ) ≤ x ∨ y < 0 ∨ (hm.height : ℤ) ≤ y
  · have hng : ¬ inGrid hm.width hm.height x y := by unfold inGrid; omega
    simp [Heightmap.set, hoob, hng]
  · have hin : inGrid hm.width hm.height x y := by unfold inGrid; omega
    rw [Heightmap.set, if_neg hoob]
    by_cases hoob' : x' < 0 ∨ (hm.width : ℤ) ≤ x' ∨ y' < 0 ∨ (hm.height : ℤ) ≤ y'
    · have hc : ¬(x' = x ∧ y' = y ∧ inGrid hm.width hm.height x y) := by
        rintro ⟨rfl, rfl, _⟩; exact hoob hoob'
      simp [Heightmap.get, hoob', hc]
    · by_cases hxy : x' = x ∧ y' = y
      · obtain ⟨rfl, rfl⟩ := hxy
        have hidx : y'.toNat * hm.width + x'.toNat < hm.data.length := by
          rw [hm.hlen]; exact cellIndex_lt hin
        simp [Heightmap.get, hoob', hin, List.getElem?_set, hidx]
      · have hin' : inGrid hm.width hm.height x' y' := by unfold inGrid; omega
        have hne : y.toNat * hm.width + x.toNat ≠ y'.toNat * hm.width + x'.toNat := by
          intro he
          obtain ⟨hb, ha⟩ := rowcol_inj (by obtain ⟨_, _, _, _⟩ := hin; omega)
            (by obtain ⟨_, _, _, _⟩ := hin'; omega) he
          apply hxy
          constructor
          · obtain ⟨c1, _, _, _⟩ := hin; obtain ⟨c1', _, _, _⟩ := hin'; omega
          · obtain ⟨_, _, c3, _⟩ := hin; obtain ⟨_, _, c3', _⟩ := hin'; omega
        have hc : ¬(x' = x ∧ y' = y ∧ inGrid hm.width hm.height x y) := by
          rintro ⟨rfl, rfl, _⟩; exact hxy ⟨rfl, rfl⟩
        simp [Heightmap.get, hoob', hc, List.getElem?_set, hne]

lemma width_foldl_setRow (v : ℚ) (P : ℤ → Prop) [DecidablePred P] (py : ℤ)
    (l : List ℤ) (hm : Heightmap) :
    (l.foldl (fun b px => if P px then b.set px py v else b) hm).width = hm.width ∧
    (l.foldl (fun b px => if P px then b.set px py v else b) hm).height = hm.height := by
  induction l generalizing hm with
  | nil => exact ⟨rfl, rfl⟩
  | cons a t ih =>
    rw [List.foldl_cons]
    obtain ⟨hw, hh⟩ := ih (if P a then hm.set a py v else hm)
    constructor
    · rw [hw]; split <;> simp [Heightmap.width_set]
    · rw [hh]; split <;> simp [Heightmap.height_set]

lemma get_foldl_setRow (v : ℚ) (P : ℤ → Prop) [DecidablePred P] (py : ℤ)
    (l : List ℤ) (hm : Heightmap) (x' y' : ℤ) :
    (l.foldl (fun b px => if P px then b.set px py v else b) hm).get x' y' =
      if x' ∈ l ∧ y' = py ∧ P x' ∧ inGrid hm.width hm.height x' y' then v
      else hm.get x' y' := by
  induction l generalizing hm with
  | nil => simp
  | cons a t ih =>
    rw [List.foldl_cons, ih]
    have hw : (if P a then hm.set a py v else hm).width = hm.width := by
      split <;> simp [Heightmap.width_set]
    have hh : (if P a then hm.set a py v else hm).height = hm.height := by
      split <;> simp [Heightmap.height_set]
    rw [hw, hh]
    by_cases hmem : x' ∈ t ∧ y' = py ∧ P x' ∧ inGrid hm.width hm.height x' y'
    · rw [if_pos hmem, if_pos ⟨List.mem_cons_of_mem a hmem.1, hmem.2⟩]
    · rw [if_neg hmem]
      by_cases hPa : P a
      · rw [if_pos hPa, Heightmap.get_set]
        by_cases hs : x' = a ∧ y' = py ∧ inGrid hm.width hm.height a py
        · obtain ⟨rfl, rfl, hg⟩ := hs
          rw [if_pos ⟨rfl, rfl, hg⟩, if_pos ⟨List.mem_cons_self _ _, rfl, hPa, hg⟩]
        · rw [if_neg hs]
          by_cases hbig : x' ∈ a :: t ∧ y' = py ∧ P x' ∧ inGrid hm.width hm.height x' y'
          · exfalso
            obtain ⟨hm1, rfl, hm3, hm4⟩ := hbig
            rcases List.mem_cons.mp hm1 with rfl | hmt
            · exact hs ⟨rfl, rfl, hm4⟩
            · exact hmem ⟨hmt, rfl, hm3, hm4⟩
          · rw [if_neg hbig]
      · rw [if_neg hPa]
        by_cases hbig : x' ∈ a :: t ∧ y' = py ∧ P x' ∧ inGrid hm.width hm.height x' y'
        · exfalso
          obtain ⟨hm1, rfl, hm3, hm4⟩ := hbig
          rcases List.mem_cons.mp hm1 with rfl | hmt
          · exact hPa hm3
          · exact hmem ⟨hmt, rfl, hm3, hm4⟩
        · rw [if_neg hbig]

lemma get_foldl_setGrid (v : ℚ) (Q : ℤ → ℤ → Prop) [∀ a b, Decidable (Q a b)]
    (xs rows : List ℤ) (hm : Heightmap) (x' y' : ℤ) :
    (rows.foldl (fun a py =>
        xs.foldl (fun b px => if Q px py then b.set px py v else b) a) hm).get x' y' =
      if y' ∈ rows ∧ x' ∈ xs ∧ Q x' y' ∧ inGrid hm.width hm.height x' y' then v
      else hm.get x' y' := by
  induction rows generalizing hm with
  | nil => simp
  | cons a t ih =>
    rw [List.foldl_cons, ih]
    obtain ⟨hw, hh⟩ := width_foldl_setRow v (fun px => Q px a) a xs hm
    rw [hw, hh]
    by_cases hmem : y' ∈ t ∧ x' ∈ xs ∧ Q x' y' ∧ inGrid hm.width hm.height x' y'
    · rw [if_pos hmem, if_pos ⟨List.mem_cons_of_mem a hmem.1, hmem.2⟩]
    · rw [if_neg hmem, get_foldl_setRow]
      by_cases hs : x' ∈ xs ∧ y' = a ∧ Q x' a ∧ inGrid hm.width hm.height x' y'
      · obtain ⟨hs1, rfl, hs3, hs4⟩ := hs
        rw [if_pos ⟨hs1, rfl, hs3, hs4⟩, if_pos ⟨List.mem_cons_self _ _, hs1, hs3, hs4⟩]
      · rw [if_neg hs]
        by_cases hbig : y' ∈ a :: t ∧ x' ∈ xs ∧ Q x' y' ∧ inGrid hm.width hm.height x' y'
        · exfalso
          obtain ⟨hm1, hm2, hm3, hm4⟩ := hbig
          rcases List.mem_cons.mp hm1 with rfl | hmt
          · exact hs ⟨hm2, rfl, hm3, hm4⟩
          · exact hmem ⟨hmt, hm2, hm3, hm4⟩
        · rw [if_neg hbig]

lemma mem_intRangeLt {a b t : ℤ} : t ∈ intRangeLt a b ↔ a ≤ t ∧ t < b := by
  unfold intRangeLt
  simp only [List.mem_map, List.mem_range]
  constructor
  · rintro ⟨i, hi, rfl⟩; omega
  · rintro ⟨h1, h2⟩; exact ⟨(t - a).toNat, by omega, by omega⟩

lemma mem_intRangeLe {a b t : ℤ} : t ∈ intRangeLe a b ↔ a ≤ t ∧ t ≤ b := by
  rw [intRangeLe, mem_intRangeLt]; omega

lemma Heightmap.get_drawRectangle (hm : Heightmap) (x0 y0 w h : ℤ) (v : ℚ) (x y : ℤ) :
    (hm.drawRectangle x0 y0 w h v).get x y =
      if (x0 ≤ x ∧ x < x0 + w ∧ y0 ≤ y ∧ y < y0 + h) ∧ inGrid hm.width hm.height x y
      then v else hm.get x y := by
  unfold Heightmap.drawRectangle
  rw [get_foldl_setGrid]
  by_cases hc : (x0 ≤ x ∧ x < x0 + w ∧ y0 ≤ y ∧ y < y0 + h) ∧ inGrid hm.width hm.height x y
  · obtain ⟨⟨c1, c2, c3, c4⟩, hin⟩ := hc
    obtain ⟨g1, g2, g3, g4⟩ := hin
    rw [if_pos ⟨mem_intRangeLt.mpr (by omega), mem_intRangeLt.mpr (by omega),
      ⟨g1, g3⟩, ⟨g1, g2, g3, g4⟩⟩, if_pos ⟨⟨c1, c2, c3, c4⟩, g1, g2, g3, g4⟩]
  · rw [if_neg hc, if_neg ?_]
    rintro ⟨hy, hx, -, hin⟩
    rw [mem_intRangeLt] at hx hy
    exact hc ⟨⟨hx.1, by omega, hy.1, by omega⟩, hin⟩

lemma Heightmap.get_drawCircle (hm : Heightmap) (cx cy r v : ℚ) (hr : 0 ≤ r) (x y : ℤ) :
    (hm.drawCircle cx cy r v).get x y =
      if (((x : ℚ) - cx) * ((x : ℚ) - cx) + ((y : ℚ) - cy) * ((y : ℚ) - cy) ≤ r * r) ∧
          inGrid hm.width hm.height x y
      then v else hm.get x y := by
  unfold Heightmap.drawCircle
  rw [get_foldl_setGrid]
  by_cases hc : (((x : ℚ) - cx) * ((x : ℚ) - cx) + ((y : ℚ) - cy) * ((y : ℚ) - cy) ≤ r * r) ∧
      inGrid hm.width hm.height x y
  · obtain ⟨hd, hin⟩ := hc
    have hx1 : cx - r ≤ (x : ℚ) := by
      nlinarith [mul_self_nonneg ((x : ℚ) - cx + r), mul_self_nonneg ((y : ℚ) - cy)]
    have hx2 : (x : ℚ) ≤ cx + r := by
      nlinarith [mul_self_nonneg ((x : ℚ) - cx - r), mul_self_nonneg ((y : ℚ) - cy)]
    have hy1 : cy - r ≤ (y : ℚ) := by
      nlinarith [mul_self_nonneg ((y : ℚ) - cy + r), mul_self_nonneg ((x : ℚ) - cx)]
    have hy2 : (y : ℚ) ≤ cy + r := by
      nlinarith [mul_self_nonneg ((y : ℚ) - cy - r), mul_self_nonneg ((x : ℚ) - cx)]
    have hmx : x ∈ intRangeLe ⌊cx - r⌋ ⌈cx + r⌉ := by
      rw [mem_intRangeLe]
      constructor
      · calc ⌊cx - r⌋ ≤ ⌊(x : ℚ)⌋ := Int.floor_mono hx1
          _ = x := Int.floor_intCast x
      · calc x = ⌈(x : ℚ)⌉ := (Int.ceil_intCast x).symm
          _ ≤ ⌈cx + r⌉ := Int.ceil_mono hx2
    have hmy : y ∈ intRangeLe ⌊cy - r⌋ ⌈cy + r⌉ := by
      rw [mem_intRangeLe]
      constructor
      · calc ⌊cy - r⌋ ≤ ⌊(y : ℚ)⌋ := Int.floor_mono hy1
          _ = y := Int.floor_intCast y
      · calc y = ⌈(y : ℚ)⌉ := (Int.ceil_intCast y).symm
          _ ≤ ⌈cy + r⌉ := Int.ceil_mono hy2
    rw [if_pos ⟨hmy, hmx, hd, hin⟩, if_pos ⟨hd, hin⟩]
  · rw [if_neg hc, if_neg ?_]
    rintro ⟨-, -, hd, hin⟩
    exact hc ⟨hd, hin⟩

/-- Claim C7: after fillDisc, every in-bounds cell within the inclusive
Euclidean disc holds exactly the written value, and every cell strictly
outside the disc is unchanged. -/
theorem fillDisc_exact (hm : Heightmap) (cx cy r v : ℚ) (hr : 0 ≤ r) (x y : ℤ) :
    (inGrid hm.width hm.height x y →
      ((x : ℚ) - cx) * ((x : ℚ) - cx) + ((y : ℚ) - cy) * ((y : ℚ) - cy) ≤ r * r →
      (hm.drawCircle cx cy r v).get x y = v) ∧
    (r * r < ((x : ℚ) - cx) * ((x : ℚ) - cx) + ((y : ℚ) - cy) * ((y : ℚ) - cy) →
      (hm.drawCircle cx cy r v).get x y = hm.get x y) := by
  constructor
  · intro hin hd
    rw [Heightmap.get_drawCircle hm cx cy r v hr, if_pos ⟨hd, hin⟩]
  · intro hd
    rw [Heightmap.get_drawCircle hm cx cy r v hr, if_neg ?_]
    rintro ⟨hd', -⟩
    exact absurd hd' (not_le.mpr hd)

/-- Witness for C7: a radius-10 disc at (50,50) on a 101×101 grid, checked at
the boundary cell (50,60) whose squared distance is exactly 100. -/
theorem fillDisc_exact_witness :
    (inGrid 101 101 50 60 →
      ((50 : ℚ) - 50) * ((50 : ℚ) - 50) + ((60 : ℚ) - 50) * ((60 : ℚ) - 50) ≤ 10 * 10 →
      ((Heightmap.ofSize 101 101).drawCircle 50 50 10 7).get 50 60 = 7) ∧
    (10 * 10 < ((50 : ℚ) - 50) * ((50 : ℚ) - 50) + ((60 : ℚ) - 50) * ((60 : ℚ) - 50) →
      ((Heightmap.ofSize 101 101).drawCircle 50 50 10 7).get 50 60 =
        (Heightmap.ofSize 101 101).get 50 60) :=
  fillDisc_exact (Heightmap.ofSize 101 101) 50 50 10 7 (by norm_num) 50 60

lemma Heightmap.width_add (hm : Heightmap) (x y : ℤ) (v : ℚ) :
    (hm.add x y v).width = hm.width ∧ (hm.add x y v).height = hm.height := by
  unfold Heightmap.add; split <;> exact ⟨rfl, rfl⟩

lemma width_noiseCellStep (scale amplitude : ℚ) (octaves : Nat)
    (st : Heightmap × PerlinNoise) (c : Nat × Nat) :
    (noiseCellStep scale amplitude octaves st c).1.width = st.1.width ∧
    (noiseCellStep scale amplitude octaves st c).1.height = st.1.height := by
  unfold noiseCellStep
  exact Heightmap.width_add _ _ _ _

lemma width_applyPerlinNoise (hm : Heightmap) (scale amplitude : ℚ) (octaves : Nat)
    (stream : Nat → ℚ × ℚ) :
    (hm.applyPerlinNoise scale amplitude octaves stream).width = hm.width ∧
    (hm.applyPerlinNoise scale amplitude octaves stream).height = hm.height := by
  unfold Heightmap.applyPerlinNoise
  dsimp only
  generalize (List.range hm.height).flatMap (fun y =>
    (List.range hm.width).map (fun x => (x, y))) = l
  generalize hst : ((hm, (⟨[], [], stream, 0⟩ : PerlinNoise)) : Heightmap × PerlinNoise) = st
  have hw : st.1.width = hm.width ∧ st.1.height = hm.height := by rw [← hst]; exact ⟨rfl, rfl⟩
  clear hst
  induction l generalizing st with
  | nil => simpa using hw
  | cons c t ih =>
    rw [List.foldl_cons]
    apply ih
    obtain ⟨h1, h2⟩ := width_noiseCellStep scale amplitude octaves st c
    rw [h1, h2]; exact hw

lemma width_foldl_setGrid (v : ℚ) (Q : ℤ → ℤ → Prop) [∀ a b, Decidable (Q a b)]
    (xs rows : List ℤ) (hm : Heightmap) :
    (rows.foldl (fun a py =>
        xs.foldl (fun b px => if Q px py then b.set px py v else b) a) hm).width = hm.width ∧
    (rows.foldl (fun a py =>
        xs.foldl (fun b px => if Q px py then b.set px py v else b) a) hm).height = hm.height := by
  induction rows generalizing hm with
  | nil => exact ⟨rfl, rfl⟩
  | cons a t ih =>
    rw [List.foldl_cons]
    obtain ⟨h1, h2⟩ := width_foldl_setRow v (fun px => Q px a) a xs hm
    obtain ⟨h3, h4⟩ :=
      ih (xs.foldl (fun b px => if Q px a then b.set px a v else b) hm)
    exact ⟨h3.trans h1, h4.trans h2⟩

lemma Heightmap.width_drawRectangle (hm : Heightmap) (x0 y0 w h : ℤ) (v : ℚ) :
    (hm.drawRectangle x0 y0 w h v).width = hm.width ∧
    (hm.drawRectangle x0 y0 w h v).height = hm.height := by
  unfold Heightmap.drawRectangle
  exact width_foldl_setGrid v (fun px py => 0 ≤ px ∧ 0 ≤ py) _ _ hm

lemma Heightmap.width_drawCircle (hm : Heightmap) (cx cy r v : ℚ) :
    (hm.drawCircle cx cy r v).width = hm.width ∧
    (hm.drawCircle cx cy r v).height = hm.height := by
  unfold Heightmap.drawCircle
  exact width_foldl_setGrid v
    (fun px py => ((px : ℚ) - cx) * ((px : ℚ) - cx) +
      ((py : ℚ) - cy) * ((py : ℚ) - cy) ≤ r * r) _ _ hm

lemma generate_unfold (width height : Nat) (stream : Nat → ℚ × ℚ) :
    generateProceduralHeightmap width height stream =
      (((((((Heightmap.ofSize width height).applyPerlinNoise (1/20) 8 4 stream
        ).drawRectangle 50 50 40 40 2
        ).drawRectangle 170 170 35 35 2
        ).drawRectangle 100 30 60 30 (5/2)
        ).drawRectangle 30 150 50 40 (9/5)
        ).drawCircle 128 128 25 3) := rfl

/-- Claim C8: after generateProceduralHeightmap, every in-bounds cell covered
by at least one flat-pad stamp holds exactly the value of the last stamp that
covers it, regardless of the noise accumulated beforehand. -/
theorem pads_overwrite_noise (width height : Nat) (stream : Nat → ℚ × ℚ) (x y : ℤ)
    (hin : inGrid width height x y) (v : ℚ)
    (hv : lastPadValue codePads x y = some v) :
    (generateProceduralHeightmap width height stream).get x y = v := by
  rw [generate_unfold]
  obtain ⟨hw0, hh0⟩ :=
    width_applyPerlinNoise (Heightmap.ofSize width height) (1/20) 8 4 stream
  set base := (Heightmap.ofSize width height).applyPerlinNoise (1/20) 8 4 stream with hbase
  obtain ⟨hw1, hh1⟩ := base.width_drawRectangle 50 50 40 40 2
  set m1 := base.drawRectangle 50 50 40 40 2 with hm1
  obtain ⟨hw2, hh2⟩ := m1.width_drawRectangle 170 170 35 35 2
  set m2 := m1.drawRectangle 170 170 35 35 2 with hm2
  obtain ⟨hw3, hh3⟩ := m2.width_drawRectangle 100 30 60 30 (5/2)
  set m3 := m2.drawRectangle 100 30 60 30 (5/2) with hm3
  obtain ⟨hw4, hh4⟩ := m3.width_drawRectangle 30 150 50 40 (9/5)
  set m4 := m3.drawRectangle 30 150 50 40 (9/5) with hm4
  rw [m4.get_drawCircle 128 128 25 3 (by norm_num) x y]
  rw [hm4, m3.get_drawRectangle 30 150 50 40 (9/5) x y]
  rw [hm3, m2.get_drawRectangle 100 30 60 30 (5/2) x y]
  rw [hm2, m1.get_drawRectangle 170 170 35 35 2 x y]
  rw [hm1, base.get_drawRectangle 50 50 40 40 2 x y]
  rw [hw4, hh4, hw3, hh3, hw2, hh2, hw1, hh1, hw0, hh0]
  have hing : inGrid (Heightmap.ofSize width height).width
      (Heightmap.ofSize width height).height x y := hin
  simp only [lastPadValue, codePads, List.foldl_cons, List.foldl_nil,
    Pad.covers, Pad.value] at hv
  simp only [hing, and_true]
  split_ifs at hv ⊢ <;> simp_all

/-- Witness for C8: on a 60×60 grid, cell (55, 55) is covered only by the
first rectangle pad and ends at its height 2. -/
theorem pads_overwrite_noise_witness :
    (generateProceduralHeightmap 60 60 (fun _ => (1, 0))).get 55 55 = 2 :=
  pads_overwrite_noise 60 60 (fun _ => (1, 0)) 55 55 (by decide) 2 (by decide)

lemma noise_only_at_2x1 (s : Nat → ℚ × ℚ) :
    (generateProceduralHeightmap 2 1 s).get 1 0 =
      ((Heightmap.ofSize 2 1).applyPerlinNoise (1/20) 8 4 s).get 1 0 := by
  rw [generate_unfold,
    Heightmap.get_drawCircle _ 128 128 25 3 (by norm_num) 1 0,
    if_neg (fun hc => by have h := hc.1; norm_num at h),
    Heightmap.get_drawRectangle _ 30 150 50 40 (9/5) 1 0,
    if_neg (fun hc => by have h := hc.1.1; omega),
    Heightmap.get_drawRectangle _ 100 30 60 30 (5/2) 1 0,
    if_neg (fun hc => by have h := hc.1.1; omega),
    Heightmap.get_drawRectangle _ 170 170 35 35 2 1 0,
    if_neg (fun hc => by have h := hc.1.1; omega),
    Heightmap.get_drawRectangle _ 50 50 40 40 2 1 0,
    if_neg (fun hc => by have h := hc.1.1; omega)]

set_option maxHeartbeats 1000000 in
/-- Claim C5 (refuted on the code): PerlinNoise stores its seed but
`rand_vect` draws from the ambient `Math.random()` source, so two runs of
generateProceduralHeightmap with identical configuration — and in particular
identical seed — but different ambient random draws produce different
heightfields.  Here: width 2, height 1, gradients all `(1,0)` (θ = 0) versus
all `(0,1)` (θ = π/2), differing at cell (1,0). -/
theorem seedless_rng_nondeterminism :
    (generateProceduralHeightmap 2 1 (fun _ => (1, 0))).get 1 0 ≠
    (generateProceduralHeightmap 2 1 (fun _ => (0, 1))).get 1 0 := by
  rw [noise_only_at_2x1, noise_only_at_2x1]
  decide

lemma alookup_cons_self {α β : Type} [DecidableEq α] (k : α) (v : β) (l : List (α × β)) :
    alookup ((k, v) :: l) k = some v := by simp [alookup]

lemma dot_prod_grid_spec (p : PerlinNoise) (x y : ℚ) (vx vy : ℤ) :
    ∃ g : ℚ × ℚ,
      (p.dot_prod_grid x y vx vy).1 = (x - (vx : ℚ)) * g.1 + (y - (vy : ℚ)) * g.2 ∧
      alookup (p.dot_prod_grid x y vx vy).2.gradients (vx, vy) = some g ∧
      (∀ k g', alookup p.gradients k = some g' →
        alookup (p.dot_prod_grid x y vx vy).2.gradients k = some g') ∧
      (p.dot_prod_grid x y vx vy).2.memory = p.memory := by
  unfold PerlinNoise.dot_prod_grid
  cases hl : alookup p.gradients (vx, vy) with
  | some g =>
    exact ⟨g, by simp, by simpa using hl, fun k g' h => by simpa using h, by simp⟩
  | none =>
    refine ⟨p.stream p.counter, by simp [PerlinNoise.rand_vect], ?_, ?_, by
      simp [PerlinNoise.rand_vect]⟩
    · simp only [PerlinNoise.rand_vect]
      exact alookup_cons_self _ _ _
    · intro k g' h
      have hk : k ≠ (vx, vy) := by
        rintro rfl; rw [h] at hl; exact Option.noConfusion hl
      simp only [PerlinNoise.rand_vect, alookup, if_neg hk]
      exact h

lemma compute_spec (p : PerlinNoise) (x y : ℚ) :
    ∃ g1 g2 g3 g4 : ℚ × ℚ,
      alookup (p.compute x y).2.gradients (⌊x⌋, ⌊y⌋) = some g1 ∧
      alookup (p.compute x y).2.gradients (⌊x⌋ + 1, ⌊y⌋) = some g2 ∧
      alookup (p.compute x y).2.gradients (⌊x⌋, ⌊y⌋ + 1) = some g3 ∧
      alookup (p.compute x y).2.gradients (⌊x⌋ + 1, ⌊y⌋ + 1) = some g4 ∧
      (p.compute x y).1 = noiseVal x y g1 g2 g3 g4 ∧
      (∃ rest, (p.compute x y).2.memory = ((x, y), (p.compute x y).1) :: rest) := by
  obtain ⟨g1, hv1, hl1, hmo1, -⟩ := dot_prod_grid_spec p x y ⌊x⌋ ⌊y⌋
  obtain ⟨g2, hv2, hl2, hmo2, -⟩ :=
    dot_prod_grid_spec (p.dot_prod_grid x y ⌊x⌋ ⌊y⌋).2 x y (⌊x⌋ + 1) ⌊y⌋
  obtain ⟨g3, hv3, hl3, hmo3, -⟩ :=
    dot_prod_grid_spec ((p.dot_prod_grid x y ⌊x⌋ ⌊y⌋).2.dot_prod_grid
      x y (⌊x⌋ + 1) ⌊y⌋).2 x y ⌊x⌋ (⌊y⌋ + 1)
  obtain ⟨g4, hv4, hl4, hmo4, -⟩ :=
    dot_prod_grid_spec (((p.dot_prod_grid x y ⌊x⌋ ⌊y⌋).2.dot_prod_grid
      x y (⌊x⌋ + 1) ⌊y⌋).2.dot_prod_grid x y ⌊x⌋ (⌊y⌋ + 1)).2 x y (⌊x⌋ + 1) (⌊y⌋ + 1)
  refine ⟨g1, g2, g3, g4, ?_, ?_, ?_, ?_, ?_, ⟨_, rfl⟩⟩
  · exact hmo4 _ _ (hmo3 _ _ (hmo2 _ _ hl1))
  · exact hmo4 _ _ (hmo3 _ _ hl2)
  · exact hmo4 _ _ hl3
  · exact hl4
  · show interp (y - ((⌊y⌋ : ℤ) : ℚ))
      (interp (x - ((⌊x⌋ : ℤ) : ℚ)) (p.dot_prod_grid x y ⌊x⌋ ⌊y⌋).1
        ((p.dot_prod_grid x y ⌊x⌋ ⌊y⌋).2.dot_prod_grid x y (⌊x⌋ + 1) ⌊y⌋).1)
      (interp (x - ((⌊x⌋ : ℤ) : ℚ))
        (((p.dot_prod_grid x y ⌊x⌋ ⌊y⌋).2.dot_prod_grid
          x y (⌊x⌋ + 1) ⌊y⌋).2.dot_prod_grid x y ⌊x⌋ (⌊y⌋ + 1)).1
        ((((p.dot_prod_grid x y ⌊x⌋ ⌊y⌋).2.dot_prod_grid
          x y (⌊x⌋ + 1) ⌊y⌋).2.dot_prod_grid x y ⌊x⌋ (⌊y⌋ + 1)).2.dot_prod_grid
            x y (⌊x⌋ + 1) (⌊y⌋ + 1)).1) = noiseVal x y g1 g2 g3 g4
    rw [hv1, hv2, hv3, hv4]
    rfl

lemma compute_of_cached (p : PerlinNoise) (x y : ℚ) (g1 g2 g3 g4 : ℚ × ℚ)
    (h1 : alookup p.gradients (⌊x⌋, ⌊y⌋) = some g1)
    (h2 : alookup p.gradients (⌊x⌋ + 1, ⌊y⌋) = some g2)
    (h3 : alookup p.gradients (⌊x⌋, ⌊y⌋ + 1) = some g3)
    (h4 : alookup p.gradients (⌊x⌋ + 1, ⌊y⌋ + 1) = some g4) :
    (p.compute x y).1 = noiseVal x y g1 g2 g3 g4 := by
  have e1 : p.dot_prod_grid x y ⌊x⌋ ⌊y⌋ =
      ((x - ((⌊x⌋ : ℤ) : ℚ)) * g1.1 + (y - ((⌊y⌋ : ℤ) : ℚ)) * g1.2, p) := by
    unfold PerlinNoise.dot_prod_grid; rw [h1]
  have e2 : p.dot_prod_grid x y (⌊x⌋ + 1) ⌊y⌋ =
      ((x - ((⌊x⌋ + 1 : ℤ) : ℚ)) * g2.1 + (y - ((⌊y⌋ : ℤ) : ℚ)) * g2.2, p) := by
    unfold PerlinNoise.dot_prod_grid; rw [h2]
  have e3 : p.dot_prod_grid x y ⌊x⌋ (⌊y⌋ + 1) =
      ((x - ((⌊x⌋ : ℤ) : ℚ)) * g3.1 + (y - ((⌊y⌋ + 1 : ℤ) : ℚ)) * g3.2, p) := by
    unfold PerlinNoise.dot_prod_grid; rw [h3]
  have e4 : p.dot_prod_grid x y (⌊x⌋ + 1) (⌊y⌋ + 1) =
      ((x - ((⌊x⌋ + 1 : ℤ) : ℚ)) * g4.1 + (y - ((⌊y⌋ + 1 : ℤ) : ℚ)) * g4.2, p) := by
    unfold PerlinNoise.dot_prod_grid; rw [h4]
  show interp (y - ((⌊y⌋ : ℤ) : ℚ))
      (interp (x - ((⌊x⌋ : ℤ) : ℚ)) (p.dot_prod_grid x y ⌊x⌋ ⌊y⌋).1
        ((p.dot_prod_grid x y ⌊x⌋ ⌊y⌋).2.dot_prod_grid x y (⌊x⌋ + 1) ⌊y⌋).1)
      (interp (x - ((⌊x⌋ : ℤ) : ℚ))
        (((p.dot_prod_grid x y ⌊x⌋ ⌊y⌋).2.dot_prod_grid
          x y (⌊x⌋ + 1) ⌊y⌋).2.dot_prod_grid x y ⌊x⌋ (⌊y⌋ + 1)).1
        ((((p.dot_prod_grid x y ⌊x⌋ ⌊y⌋).2.dot_prod_grid
          x y (⌊x⌋ + 1) ⌊y⌋).2.dot_prod_grid x y ⌊x⌋ (⌊y⌋ + 1)).2.dot_prod_grid
            x y (⌊x⌋ + 1) (⌊y⌋ + 1)).1) = noiseVal x y g1 g2 g3 g4
  rw [e1]
  rw [e2]
  rw [e3]
  rw [e4]
  rfl

lemma get_after_compute (p : PerlinNoise) (x y : ℚ) :
    (((p.compute x y).2).get x y).1 = (p.compute x y).1 := by
  obtain ⟨g1, g2, g3, g4, hl1, hl2, hl3, hl4, hval, rest, hmem⟩ := compute_spec p x y
  have hlk : alookup (p.compute x y).2.memory (x, y) = some (p.compute x y).1 := by
    rw [hmem]; exact alookup_cons_self _ _ _
  by_cases hv : (p.compute x y).1 = 0
  · have hget : ((p.compute x y).2).get x y = ((p.compute x y).2).compute x y := by
      simp only [PerlinNoise.get, hlk]
      rw [if_pos hv]
    rw [hget, compute_of_cached _ x y g1 g2 g3 g4 hl1 hl2 hl3 hl4, ← hval]
  · have hget : ((p.compute x y).2).get x y = ((p.compute x y).1, (p.compute x y).2) := by
      simp only [PerlinNoise.get, hlk]
      rw [if_neg hv]
    rw [hget]

/-- Claim C6: on one PerlinNoise instance two successive samples of the same
coordinate return the same value — including coordinates whose value is 0,
where the JS-falsy memo test misses and the sample is recomputed from the (by
then cached) corner gradients. -/
theorem noise_sample_idempotent (p : PerlinNoise) (x y : ℚ) :
    (((p.get x y).2).get x y).1 = (p.get x y).1 := by
  cases hl : alookup p.memory (x, y) with
  | none =>
    have h1 : p.get x y = p.compute x y := by
      simp only [PerlinNoise.get, hl]
    rw [h1]
    exact get_after_compute p x y
  | some v =>
    by_cases hv : v = 0
    · have h1 : p.get x y = p.compute x y := by
        simp only [PerlinNoise.get, hl]; rw [if_pos hv]
      rw [h1]
      exact get_after_compute p x y
    · have h1 : p.get x y = (v, p) := by
        simp only [PerlinNoise.get, hl]; rw [if_neg hv]
      rw [h1, h1]

lemma len_flatMap_const {α : Type} (g : Nat → List α) (k : Nat)
    (hg : ∀ i, (g i).length = k) (n : Nat) :
    ((List.range n).flatMap g).length = n * k := by
  induction n with
  | zero => simp
  | succ m ih =>
    rw [List.range_succ, List.flatMap_append, List.length_append, ih]
    simp [hg, Nat.succ_mul]

lemma getD_grid {α : Type} (f : Nat → Nat → α) (W : Nat) (d : α) :
    ∀ (H z x : Nat), x < W → z < H →
      ((List.range H).flatMap (fun zz => (List.range W).map (fun xx => f xx zz))).getD
        (z * W + x) d = f x z := by
  intro H
  induction H with
  | zero => intro z x _ hz; exact absurd hz (Nat.not_lt_zero z)
  | succ m ih =>
    intro z x hx hz
    rw [List.range_succ, List.flatMap_append]
    have hlen : ((List.range m).flatMap
        (fun zz => (List.range W).map (fun xx => f xx zz))).length = m * W :=
      len_flatMap_const _ W (fun i => by simp) m
    by_cases hzm : z < m
    · rw [List.getD_append _ _ _ _ (by
        rw [hlen]
        calc z * W + x < z * W + W := Nat.add_lt_add_left hx _
          _ = (z + 1) * W := (Nat.succ_mul _ _).symm
          _ ≤ m * W := mul_le_mul_right' (by omega) W)]
      exact ih z x hx hzm
    · have hzeq : z = m := by omega
      subst hzeq
      rw [List.getD_append_right _ _ _ _ (by rw [hlen]; exact Nat.le_add_right _ _), hlen,
        Nat.add_sub_cancel_left]
      simp only [List.flatMap_cons, List.flatMap_nil, List.append_nil]
      rw [List.getD_eq_getElem?_getD, List.getElem?_map, List.getElem?_range hx]
      rfl

/-- Claim C1: on a W×H field the builder produces exactly W×H vertices and
6×(W−1)×(H−1) indices; in particular the index count is 0 when W < 2 or
H < 2.  The builder is a total function, so it never crashes. -/
theorem mesh_size_invariant (hm : Heightmap) (hW : 1 ≤ hm.width) (hH : 1 ≤ hm.height) :
    (createTerrainMesh hm).vertexCount = hm.width * hm.height ∧
    (createTerrainMesh hm).indexCount = 6 * (hm.width - 1) * (hm.height - 1) ∧
    (hm.width < 2 ∨ hm.height < 2 → (createTerrainMesh hm).indexCount = 0) := by
  have hv : (terrainVertices hm).length = hm.height * hm.width := by
    unfold terrainVertices
    exact len_flatMap_const _ hm.width (fun i => by simp) hm.height
  have hi : (terrainIndices hm.width hm.height).length =
      (hm.height - 1) * ((hm.width - 1) * 6) := by
    unfold terrainIndices
    refine len_flatMap_const _ _ (fun z => ?_) (hm.height - 1)
    exact len_flatMap_const _ 6 (fun x => by rfl) (hm.width - 1)
  refine ⟨?_, ?_, ?_⟩
  · show (terrainVertices hm).length = _
    rw [hv, Nat.mul_comm]
  · show (terrainIndices hm.width hm.height).length = _
    rw [hi]; ring
  · intro hlt
    show (terrainIndices hm.width hm.height).length = 0
    rw [hi]
    rcases hlt with h | h
    · have hz : hm.width - 1 = 0 := by omega
      rw [hz]; simp
    · have hz : hm.height - 1 = 0 := by omega
      rw [hz]; simp

/-- Witness for C1 at a concrete 2×3 field. -/
theorem mesh_size_invariant_witness :
    (createTerrainMesh (Heightmap.ofSize 2 3)).vertexCount = 2 * 3 ∧
    (createTerrainMesh (Heightmap.ofSize 2 3)).indexCount = 6 * (2 - 1) * (3 - 1) ∧
    (2 < 2 ∨ 3 < 2 → (createTerrainMesh (Heightmap.ofSize 2 3)).indexCount = 0) :=
  mesh_size_invariant (Heightmap.ofSize 2 3) (by decide) (by decide)

lemma flatMap_range'_drop {α : Type} (g : Nat → List α) (L : Nat)
    (hg : ∀ i, (g i).length = L) :
    ∀ (m n s : Nat), m < n →
      ((List.range' s n).flatMap g).drop (L * m) =
        g (s + m) ++ (List.range' (s + m + 1) (n - (m + 1))).flatMap g := by
  intro m
  induction m with
  | zero =>
    intro n s hn
    obtain ⟨k, rfl⟩ : ∃ k, n = k + 1 := ⟨n - 1, by omega⟩
    rw [List.range'_succ, List.flatMap_cons]
    simp
  | succ m ih =>
    intro n s hn
    obtain ⟨k, rfl⟩ : ∃ k, n = k + 1 := ⟨n - 1, by omega⟩
    rw [List.range'_succ, List.flatMap_cons]
    have hL : L * (m + 1) = L + L * m := by ring
    rw [hL, ← List.drop_drop]
    rw [show List.drop L (g s ++ (List.range' (s + 1) k 1).flatMap g) =
      (List.range' (s + 1) k 1).flatMap g from by
        rw [← hg s]; exact List.drop_left _ _]
    rw [ih k (s + 1) (by omega)]
    have e1 : s + 1 + m = s + (m + 1) := by omega
    have e3 : k - (m + 1) = k + 1 - (m + 1 + 1) := by omega
    rw [e1, e3]

/-- Claim C9: for W, H ≥ 2 the index buffer is exactly the row-major
enumeration of interior quads, each quad emitting the triangles
(topLeft, bottomLeft, topRight) then (topRight, bottomLeft, bottomRight)
with topLeft = z·W + x, topRight = topLeft + 1, bottomLeft = (z+1)·W + x,
bottomRight = bottomLeft + 1, the same winding for every quad. -/
theorem index_buffer_layout (W H : Nat) (hW : 2 ≤ W) (hH : 2 ≤ H) :
    (terrainIndices W H).length = 6 * (W - 1) * (H - 1) ∧
    ∀ z x, z < H - 1 → x < W - 1 →
      ((terrainIndices W H).drop (6 * (z * (W - 1) + x))).take 6 =
        [z * W + x, (z + 1) * W + x, z * W + x + 1,
         z * W + x + 1, (z + 1) * W + x, (z + 1) * W + x + 1] := by
  constructor
  · have hi : (terrainIndices W H).length = (H - 1) * ((W - 1) * 6) := by
      unfold terrainIndices
      refine len_flatMap_const _ _ (fun z => ?_) (H - 1)
      exact len_flatMap_const _ 6 (fun x => by rfl) (W - 1)
    rw [hi]; ring
  · intro z x hz hx
    unfold terrainIndices
    have hrow : ∀ zz, ((List.range (W - 1)).flatMap (fun xx =>
        [zz * W + xx, (zz + 1) * W + xx, zz * W + xx + 1,
         zz * W + xx + 1, (zz + 1) * W + xx, (zz + 1) * W + xx + 1])).length =
        (W - 1) * 6 :=
      fun zz => len_flatMap_const _ 6 (fun xx => by rfl) (W - 1)
    have hoff : 6 * (z * (W - 1) + x) = (W - 1) * 6 * z + 6 * x := by ring
    rw [hoff, ← List.drop_drop]
    rw [List.range_eq_range']
    rw [flatMap_range'_drop _ ((W - 1) * 6) hrow z (H - 1) 0 hz]
    rw [Nat.zero_add]
    rw [List.drop_append_of_le_length (by
      rw [hrow z]
      calc 6 * x ≤ 6 * (W - 1) := Nat.mul_le_mul_left 6 (by omega)
        _ = (W - 1) * 6 := Nat.mul_comm _ _)]
    rw [List.range_eq_range']
    rw [flatMap_range'_drop _ 6 (fun xx => by rfl) x (W - 1) 0 hx]
    rw [Nat.zero_add]
    rw [List.append_assoc]
    rfl

/-- Witness for C9 at W = H = 2, quad (0,0). -/
theorem index_buffer_layout_witness :
    (terrainIndices 2 2).length = 6 * (2 - 1) * (2 - 1) ∧
    ∀ z x, z < 2 - 1 → x < 2 - 1 →
      ((terrainIndices 2 2).drop (6 * (z * (2 - 1) + x))).take 6 =
        [z * 2 + x, (z + 1) * 2 + x, z * 2 + x + 1,
         z * 2 + x + 1, (z + 1) * 2 + x, (z + 1) * 2 + x + 1] :=
  index_buffer_layout 2 2 (by decide) (by decide)

/-- Claim C10: every entry of the index buffer refers to an existing vertex:
it is strictly below W×H. -/
theorem indices_in_vertex_range (W H : Nat) (hW : 1 ≤ W) (hH : 1 ≤ H)
    (i : Nat) (hi : i ∈ terrainIndices W H) : i < W * H := by
  unfold terrainIndices at hi
  simp only [List.mem_flatMap, List.mem_range] at hi
  obtain ⟨z, hz, x, hx, hmem⟩ := hi
  have h1 : (z + 1) * W = z * W + W := Nat.succ_mul z W
  have h2 : (z + 1) * W ≤ (H - 1) * W := mul_le_mul_right' (by omega) W
  have h3 : H * W = (H - 1) * W + W := by
    have hh : H = (H - 1) + 1 := by omega
    calc H * W = ((H - 1) + 1) * W := by rw [← hh]
      _ = (H - 1) * W + W := Nat.succ_mul _ _
  have h4 : W * H = H * W := Nat.mul_comm W H
  set A := z * W with hA
  set B := (z + 1) * W with hB
  set C := (H - 1) * W with hC
  set D := H * W with hD
  simp only [List.mem_cons, List.not_mem_nil, or_false] at hmem
  rcases hmem with rfl | rfl | rfl | rfl | rfl | rfl <;> omega

/-- Witness for C10: index 0 of the 2×2 buffer is below 4. -/
theorem indices_in_vertex_range_witness : (0 : Nat) < 2 * 2 :=
  indices_in_vertex_range 2 2 (by decide) (by decide) 0 (by decide)

lemma mag_normalize3 (n : ℚ × ℚ × ℚ) : mag (normalize3 n) = 1 := by
  unfold normalize3
  split_ifs with h
  · have hq : (0 : ℝ) < ((normSq n : ℚ) : ℝ) := Real.sqrt_pos.mp h
    unfold mag
    have hl : Real.sqrt ((normSq n : ℚ) : ℝ) ≠ 0 := ne_of_gt h
    have hl2 : Real.sqrt ((normSq n : ℚ) : ℝ) ^ 2 = ((normSq n : ℚ) : ℝ) :=
      Real.sq_sqrt hq.le
    have hq' : ((normSq n : ℚ) : ℝ) =
        (n.1 : ℝ) * (n.1 : ℝ) + (n.2.1 : ℝ) * (n.2.1 : ℝ) + (n.2.2 : ℝ) * (n.2.2 : ℝ) := by
      unfold normSq; push_cast; ring
    have hsum : ((n.1 : ℝ) / Real.sqrt ((normSq n : ℚ) : ℝ)) *
          ((n.1 : ℝ) / Real.sqrt ((normSq n : ℚ) : ℝ)) +
        ((n.2.1 : ℝ) / Real.sqrt ((normSq n : ℚ) : ℝ)) *
          ((n.2.1 : ℝ) / Real.sqrt ((normSq n : ℚ) : ℝ)) +
        ((n.2.2 : ℝ) / Real.sqrt ((normSq n : ℚ) : ℝ)) *
          ((n.2.2 : ℝ) / Real.sqrt ((normSq n : ℚ) : ℝ)) =
        ((normSq n : ℚ) : ℝ) / Real.sqrt ((normSq n : ℚ) : ℝ) ^ 2 := by
      rw [hq']; field_simp; ring
    show Real.sqrt _ = 1
    rw [hsum, hl2, div_self (ne_of_gt hq), Real.sqrt_one]
  · show Real.sqrt _ = 1
    norm_num

lemma normalize3_of_normSq_zero (n : ℚ × ℚ × ℚ) (h : normSq n = 0) :
    normalize3 n = (0, 1, 0) := by
  unfold normalize3
  rw [h]
  norm_num

/-- Claim C3: every per-vertex normal of the built mesh has magnitude within
1e-4 of 1 (in the exact-real model the magnitude is exactly 1), and a vertex
whose accumulated face-normal sum has zero length gets exactly (0,1,0); the
zero-length case takes the fallback branch, so the division by zero that
would produce NaN never happens. -/
theorem mesh_normals_unit (hm : Heightmap) (j : Nat) (hj : j < hm.width * hm.height) :
    |mag (vertexNormal hm j) - 1| ≤ 1 / 10000 ∧
    (normSq (accNormals (terrainVertices hm) (terrainTriangles hm.width hm.height) j) = 0 →
      vertexNormal hm j = (0, 1, 0)) := by
  constructor
  · rw [vertexNormal, mag_normalize3]
    norm_num
  · intro h
    rw [vertexNormal, normalize3_of_normSq_zero _ h]

/-- Witness for C3 at the 1×1 zero field, vertex 0. -/
theorem mesh_normals_unit_witness :
    |mag (vertexNormal (Heightmap.ofSize 1 1) 0) - 1| ≤ 1 / 10000 ∧
    (normSq (accNormals (terrainVertices (Heightmap.ofSize 1 1))
        (terrainTriangles 1 1) 0) = 0 →
      vertexNormal (Heightmap.ofSize 1 1) 0 = (0, 1, 0)) :=
  mesh_normals_unit (Heightmap.ofSize 1 1) 0 (by decide)

lemma getD_replicate_of_lt (c : ℚ) : ∀ (n i : Nat), i < n →
    (List.replicate n c).getD i 0 = c := by
  intro n
  induction n with
  | zero => intro i h; exact absurd h (Nat.not_lt_zero i)
  | succ m ih =>
    intro i h
    cases i with
    | zero => rfl
    | succ k =>
      rw [List.replicate_succ, List.getD_cons_succ]
      exact ih k (by omega)

lemma const_get (W H : Nat) (c : ℚ) (x z : Nat) (hx : x < W) (hz : z < H) :
    (Heightmap.const W H c).get (x : ℤ) (z : ℤ) = c := by
  unfold Heightmap.get
  rw [show (Heightmap.const W H c).width = W from rfl,
    show (Heightmap.const W H c).height = H from rfl]
  rw [if_neg (by push_cast; omega)]
  show (List.replicate (W * H) c).getD ((z : ℤ).toNat * W + (x : ℤ).toNat) 0 = c
  rw [Int.toNat_natCast, Int.toNat_natCast]
  refine getD_replicate_of_lt c _ _ ?_
  calc z * W + x < z * W + W := Nat.add_lt_add_left hx _
    _ = (z + 1) * W := (Nat.succ_mul _ _).symm
    _ ≤ H * W := mul_le_mul_right' hz W
    _ = W * H := Nat.mul_comm _ _

lemma terrainVertices_getD (hm : Heightmap) (x z : Nat) (hx : x < hm.width)
    (hz : z < hm.height) (d : ℚ × ℚ × ℚ) :
    (terrainVertices hm).getD (z * hm.width + x) d =
      ((x : ℚ) + -(hm.width : ℚ) / 2, hm.get (x : ℤ) (z : ℤ),
        (z : ℚ) + -(hm.height : ℚ) / 2) := by
  unfold terrainVertices
  exact getD_grid _ hm.width d hm.height z x hx hz

lemma mem_terrainTriangles {W H : Nat} {t : Nat × Nat × Nat}
    (ht : t ∈ terrainTriangles W H) :
    ∃ z x, z < H - 1 ∧ x < W - 1 ∧
      (t = (z * W + x, (z + 1) * W + x, z * W + x + 1) ∨
       t = (z * W + x + 1, (z + 1) * W + x, (z + 1) * W + x + 1)) := by
  unfold terrainTriangles at ht
  simp only [List.mem_flatMap, List.mem_range, List.mem_cons,
    List.not_mem_nil, or_false] at ht
  obtain ⟨z, hz, x, hx, h⟩ := ht
  exact ⟨z, x, hz, hx, h⟩

lemma faceNormal_const (W H : Nat) (c : ℚ) {t : Nat × Nat × Nat}
    (ht : t ∈ terrainTriangles W H) :
    faceNormal (terrainVertices (Heightmap.const W H c)) t = (0, 1, 0) := by
  obtain ⟨z, x, hz, hx, hcase⟩ := mem_terrainTriangles ht
  have hxW : x < W := by omega
  have hx1W : x + 1 < W := by omega
  have hzH : z < H := by omega
  have hz1H : z + 1 < H := by omega
  have e00 : (terrainVertices (Heightmap.const W H c)).getD (z * W + x) 0 =
      ((x : ℚ) + -(W : ℚ) / 2, c, (z : ℚ) + -(H : ℚ) / 2) := by
    have h1 := terrainVertices_getD (Heightmap.const W H c) x z hxW hzH 0
    rw [const_get W H c x z hxW hzH] at h1
    exact h1
  have e10 : (terrainVertices (Heightmap.const W H c)).getD (z * W + x + 1) 0 =
      (((x + 1 : Nat) : ℚ) + -(W : ℚ) / 2, c, (z : ℚ) + -(H : ℚ) / 2) := by
    have h1 := terrainVertices_getD (Heightmap.const W H c) (x + 1) z hx1W hzH 0
    rw [const_get W H c (x + 1) z hx1W hzH] at h1
    exact h1
  have e01 : (terrainVertices (Heightmap.const W H c)).getD ((z + 1) * W + x) 0 =
      ((x : ℚ) + -(W : ℚ) / 2, c, ((z + 1 : Nat) : ℚ) + -(H : ℚ) / 2) := by
    have h1 := terrainVertices_getD (Heightmap.const W H c) x (z + 1) hxW hz1H 0
    rw [const_get W H c x (z + 1) hxW hz1H] at h1
    exact h1
  have e11 : (terrainVertices (Heightmap.const W H c)).getD ((z + 1) * W + x + 1) 0 =
      (((x + 1 : Nat) : ℚ) + -(W : ℚ) / 2, c, ((z + 1 : Nat) : ℚ) + -(H : ℚ) / 2) := by
    have h1 := terrainVertices_getD (Heightmap.const W H c) (x + 1) (z + 1) hx1W hz1H 0
    rw [const_get W H c (x + 1) (z + 1) hx1W hz1H] at h1
    exact h1
  rcases hcase with rfl | rfl
  · unfold faceNormal
    dsimp only
    rw [e00, e01, e10]
    simp only [cross, Prod.mk_sub_mk, Prod.mk.injEq]
    push_cast
    refine ⟨by ring, by ring, by ring⟩
  · unfold faceNormal
    dsimp only
    rw [e10, e01, e11]
    simp only [cross, Prod.mk_sub_mk, Prod.mk.injEq]
    push_cast
    refine ⟨by ring, by ring, by ring⟩

lemma accNormals_vertical (vs : List (ℚ × ℚ × ℚ)) (tris : List (Nat × Nat × Nat))
    (hface : ∀ t ∈ tris, faceNormal vs t = (0, 1, 0)) (j : Nat) :
    ∃ m : ℚ, 0 ≤ m ∧ accNormals vs tris j = (0, m, 0) := by
  unfold accNormals
  have key : ∀ (l : List (Nat × Nat × Nat)), (∀ t ∈ l, faceNormal vs t = (0, 1, 0)) →
      ∀ (acc : Nat → ℚ × ℚ × ℚ), (∀ i, ∃ m : ℚ, 0 ≤ m ∧ acc i = (0, m, 0)) →
      ∀ j, ∃ m : ℚ, 0 ≤ m ∧
        (l.foldl (fun acc t => fun j => acc j +
          (if j = t.1 then faceNormal vs t else 0) +
          (if j = t.2.1 then faceNormal vs t else 0) +
          (if j = t.2.2 then faceNormal vs t else 0)) acc) j = (0, m, 0) := by
    intro l
    induction l with
    | nil => intro _ acc hacc j; exact hacc j
    | cons t ts ih =>
      intro hf acc hacc j
      rw [List.foldl_cons]
      apply ih (fun t' ht' => hf t' (List.mem_cons_of_mem _ ht'))
      intro i
      obtain ⟨m, hm, hi⟩ := hacc i
      have hft : faceNormal vs t = (0, 1, 0) := hf t (List.mem_cons_self _ _)
      refine ⟨m + (if i = t.1 then (1 : ℚ) else 0) + (if i = t.2.1 then (1 : ℚ) else 0) +
        (if i = t.2.2 then (1 : ℚ) else 0), ?_, ?_⟩
      · have b1 : (0 : ℚ) ≤ (if i = t.1 then (1 : ℚ) else 0) := by split <;> norm_num
        have b2 : (0 : ℚ) ≤ (if i = t.2.1 then (1 : ℚ) else 0) := by split <;> norm_num
        have b3 : (0 : ℚ) ≤ (if i = t.2.2 then (1 : ℚ) else 0) := by split <;> norm_num
        linarith
      · dsimp only
        rw [hi, hft]
        have hite : ∀ (P : Prop) (inst : Decidable P),
            (if P then ((0 : ℚ), (1 : ℚ), (0 : ℚ)) else (0 : ℚ × ℚ × ℚ)) =
              (0, if P then (1 : ℚ) else 0, 0) := by
          intro P inst; split <;> rfl
        rw [hite, hite, hite]
        simp [Prod.mk_add_mk]
  exact key tris hface (fun _ => (0 : ℚ × ℚ × ℚ)) (fun i => ⟨0, le_refl 0, rfl⟩) j

lemma normalize3_vertical (m : ℚ) (hm : 0 ≤ m) : normalize3 (0, m, 0) = (0, 1, 0) := by
  rcases eq_or_lt_of_le hm with heq | hpos
  · exact normalize3_of_normSq_zero _ (by rw [← heq]; norm_num [normSq])
  · unfold normalize3
    have hq : ((normSq (0, m, 0) : ℚ) : ℝ) = (m : ℝ) ^ 2 := by
      unfold normSq; push_cast; ring
    rw [hq, Real.sqrt_sq (by positivity)]
    rw [if_pos (by exact_mod_cast hpos)]
    have hmne : (m : ℝ) ≠ 0 := by exact_mod_cast ne_of_gt hpos
    norm_num [div_self hmne]

/-- Claim C4: building the mesh from a constant-height field yields the
normal exactly (0,1,0) at every vertex. -/
theorem flat_field_normals (W H : Nat) (hW : 1 ≤ W) (hH : 1 ≤ H) (c : ℚ) (j : Nat)
    (hj : j < W * H) :
    vertexNormal (Heightmap.const W H c) j = (0, 1, 0) := by
  obtain ⟨m, hm0, hacc⟩ := accNormals_vertical (terrainVertices (Heightmap.const W H c))
    (terrainTriangles W H) (fun t ht => faceNormal_const W H c ht) j
  rw [vertexNormal, show (Heightmap.const W H c).width = W from rfl,
    show (Heightmap.const W H c).height = H from rfl, hacc]
  exact normalize3_vertical m hm0

/-- Witness for C4 at a 2×2 field of constant height 7, vertex 0. -/
theorem flat_field_normals_witness :
    vertexNormal (Heightmap.const 2 2 7) 0 = (0, 1, 0) :=
  flat_field_normals 2 2 (by decide) (by decide) 7 0 (by decide)
